import Mathlib

/-!
Verification development for the Cflat front end (lexer + recursive-descent
parser).  The lexer is embedded from lexer.cpp (the current revision, whose
superseded draft survives in the repository as commented-out code), the parser
from parser.cpp / parser.hpp / ast.hpp, and the token reconstruction from
parse_main.cpp.  Buffers are `List Char`, pointers become `Nat` indices into
the buffer, and the C++ while-loops become structurally recursive functions
whose fuel argument equals the exact number of loop steps available
(`length - position`), so every definition is executable and kernel-reducible.
-/

namespace Lexing

/-- TokenType from lexer.hpp: the closed enumeration of lexical categories. -/
inductive TokenType where
  | Error | Num | Id
  | Int | Struct | Nil | Break | Continue | Return | If | Else | While
  | New | Let | Extern | Fn | And | Or | Not
  | Colon | Semicolon | Comma | Arrow | Ampersand | Plus | Dash | Star | Slash
  | Equal | NotEq | Lt | Lte | Gt | Gte | Dot | Gets
  | OpenParen | CloseParen | OpenBracket | CloseBracket | OpenBrace | CloseBrace
  | QuestionMark
deriving DecidableEq, Repr

/-- Token from lexer.hpp: `first` is the index of the first character of the
lexeme and `last` is one past the last character, both into the source buffer
(the C++ stores `const char*` pointers into the buffer). -/
structure Token where
  token_type : TokenType
  first : Nat
  last : Nat
deriving DecidableEq, Repr

/-- C `isalpha` in the default locale, on the ASCII range. -/
def isalpha (c : Char) : Bool :=
  (65 ≤ c.toNat && c.toNat ≤ 90) || (97 ≤ c.toNat && c.toNat ≤ 122)

/-- C `isdigit`. -/
def isdigit (c : Char) : Bool := 48 ≤ c.toNat && c.toNat ≤ 57

/-- C `isalnum`. -/
def isalnum (c : Char) : Bool := isalpha c || isdigit c

/-- C `isspace` in the default locale: space and the five control
whitespace characters 9..13 (tab, newline, vtab, formfeed, carriage return). -/
def isspace (c : Char) : Bool := c.toNat = 32 || (9 ≤ c.toNat && c.toNat ≤ 13)

/-- Read the buffer at an index.  Every use in the embedded code is guarded by
a bounds check, mirroring the pointer dereferences of the C++, so the default
character is never observable. -/
def charAt (buf : List Char) (i : Nat) : Char := buf.getD i ' '

/-- substr_eq from lexer.cpp: the slice `[first, lastp)` of the buffer equals
the pattern string exactly. -/
def substr_eq (buf : List Char) (first lastp : Nat) (pat : List Char) : Bool :=
  ((buf.drop first).take (lastp - first)) == pat

/-- Generic scanning loop `while (i != last && p i) ++i`, used for the
whitespace run, the identifier/number runs, the line-comment scan and the
error-token scan.  The fuel is always called with exactly `length - i`, which
is precisely the number of increments the C++ loop can still make, so the
fuel-0 case coincides with the loop exit at the end of the buffer. -/
def scanWhile (buf : List Char) (p : Nat → Bool) : Nat → Nat → Nat
  | 0, i => i
  | fuel + 1, i =>
      if i < buf.length && p i then scanWhile buf p fuel (i + 1) else i

/-- identifier_end from lexer.cpp: one past the end of `[a-zA-Z][a-zA-Z0-9_]*`
starting at `first`, or `first` itself if no identifier starts there. -/
def identifier_end (buf : List Char) (first : Nat) : Nat :=
  if first < buf.length && isalpha (charAt buf first) then
    scanWhile buf (fun k => isalnum (charAt buf k) || charAt buf k == '_')
      (buf.length - first) first
  else first

/-- numeric_end from lexer.cpp: one past the end of `[0-9]+` starting at
`first`, or `first` itself. -/
def numeric_end (buf : List Char) (first : Nat) : Nat :=
  if first < buf.length && isdigit (charAt buf first) then
    scanWhile buf (fun k => isdigit (charAt buf k)) (buf.length - first) first
  else first

/-- starts_two_char_token from lexer.cpp: two characters remain and they form
one of the five digraph operators or a comment opener. -/
def starts_two_char_token (buf : List Char) (i : Nat) : Bool :=
  if i + 1 < buf.length then
    let a := charAt buf i
    let b := charAt buf (i + 1)
    (a == '!' && b == '=') || (a == '<' && b == '=') || (a == '>' && b == '=') ||
    (a == '-' && b == '>') || (a == '=' && b == '=') ||
    (a == '/' && (b == '/' || b == '*'))
  else false

/-- starts_one_char_token from lexer.cpp: the single-character token table. -/
def starts_one_char_token (c : Char) : Bool :=
  c == ':' || c == ';' || c == ',' || c == '&' || c == '+' || c == '-' ||
  c == '*' || c == '/' || c == '<' || c == '>' || c == '.' || c == '=' ||
  c == '(' || c == ')' || c == '[' || c == ']' || c == '\x7b' || c == '\x7d' ||
  c == '?'

/-- starts_token from lexer.cpp: some valid token (or comment) begins at `i`. -/
def starts_token (buf : List Char) (i : Nat) : Bool :=
  i < buf.length &&
    (isalpha (charAt buf i) || isdigit (charAt buf i) ||
     starts_two_char_token buf i || starts_one_char_token (charAt buf i))

/-- error_end from lexer.cpp (current revision): consume at least one
character, then keep absorbing characters, whitespace included, up to but not
including the next position where a valid token or a comment begins. -/
def error_end (buf : List Char) (first : Nat) : Nat :=
  let it := if first < buf.length then first + 1 else first
  scanWhile buf (fun k => !starts_token buf k) (buf.length - it) it

/-- one_char_munch: the single-character switch at the end of munch_token,
falling through to the error-token scan when no case matches. -/
def one_char_munch (buf : List Char) (first : Nat) : Token :=
  match charAt buf first with
  | ':' => ⟨.Colon, first, first + 1⟩
  | ';' => ⟨.Semicolon, first, first + 1⟩
  | ',' => ⟨.Comma, first, first + 1⟩
  | '&' => ⟨.Ampersand, first, first + 1⟩
  | '+' => ⟨.Plus, first, first + 1⟩
  | '-' => ⟨.Dash, first, first + 1⟩
  | '*' => ⟨.Star, first, first + 1⟩
  | '/' => ⟨.Slash, first, first + 1⟩
  | '<' => ⟨.Lt, first, first + 1⟩
  | '>' => ⟨.Gt, first, first + 1⟩
  | '.' => ⟨.Dot, first, first + 1⟩
  | '=' => ⟨.Gets, first, first + 1⟩
  | '(' => ⟨.OpenParen, first, first + 1⟩
  | ')' => ⟨.CloseParen, first, first + 1⟩
  | '[' => ⟨.OpenBracket, first, first + 1⟩
  | ']' => ⟨.CloseBracket, first, first + 1⟩
  | '\x7b' => ⟨.OpenBrace, first, first + 1⟩
  | '\x7d' => ⟨.CloseBrace, first, first + 1⟩
  | '?' => ⟨.QuestionMark, first, first + 1⟩
  | _ => ⟨.Error, first, error_end buf first⟩

/-- kw_munch: the keyword-or-identifier dispatch of munch_token, with the
keyword tests in the source order of lexer.cpp; `id_end` is the end of the
identifier run starting at `first`. -/
def kw_munch (buf : List Char) (first id_end : Nat) : Token :=
  if substr_eq buf first id_end "int".toList then ⟨.Int, first, id_end⟩
  else if substr_eq buf first id_end "struct".toList then ⟨.Struct, first, id_end⟩
  else if substr_eq buf first id_end "nil".toList then ⟨.Nil, first, id_end⟩
  else if substr_eq buf first id_end "break".toList then ⟨.Break, first, id_end⟩
  else if substr_eq buf first id_end "continue".toList then ⟨.Continue, first, id_end⟩
  else if substr_eq buf first id_end "return".toList then ⟨.Return, first, id_end⟩
  else if substr_eq buf first id_end "if".toList then ⟨.If, first, id_end⟩
  else if substr_eq buf first id_end "else".toList then ⟨.Else, first, id_end⟩
  else if substr_eq buf first id_end "while".toList then ⟨.While, first, id_end⟩
  else if substr_eq buf first id_end "new".toList then ⟨.New, first, id_end⟩
  else if substr_eq buf first id_end "let".toList then ⟨.Let, first, id_end⟩
  else if substr_eq buf first id_end "extern".toList then ⟨.Extern, first, id_end⟩
  else if substr_eq buf first id_end "fn".toList then ⟨.Fn, first, id_end⟩
  else if substr_eq buf first id_end "and".toList then ⟨.And, first, id_end⟩
  else if substr_eq buf first id_end "or".toList then ⟨.Or, first, id_end⟩
  else if substr_eq buf first id_end "not".toList then ⟨.Not, first, id_end⟩
  else ⟨.Id, first, id_end⟩

/-- two_char_munch: the five two-character operator tests of munch_token, in
source order, falling through to the one-character table. -/
def two_char_munch (buf : List Char) (first : Nat) : Token :=
  if substr_eq buf first (first + 2) "!=".toList then ⟨.NotEq, first, first + 2⟩
  else if substr_eq buf first (first + 2) "<=".toList then ⟨.Lte, first, first + 2⟩
  else if substr_eq buf first (first + 2) ">=".toList then ⟨.Gte, first, first + 2⟩
  else if substr_eq buf first (first + 2) "->".toList then ⟨.Arrow, first, first + 2⟩
  else if substr_eq buf first (first + 2) "==".toList then ⟨.Equal, first, first + 2⟩
  else one_char_munch buf first

/-- munch_token from lexer.cpp: keyword/identifier, then number, then (when at
least two characters remain, as the C++ guard `last - first >= 2` requires)
the five two-character operators, then the one-character table, then the
error fallback. -/
def munch_token (buf : List Char) (first : Nat) : Token :=
  if first = buf.length then ⟨.Error, first, buf.length⟩
  else if isalpha (charAt buf first) then kw_munch buf first (identifier_end buf first)
  else if isdigit (charAt buf first) then ⟨.Num, first, numeric_end buf first⟩
  else if 2 ≤ buf.length - first then two_char_munch buf first
  else one_char_munch buf first

/-- Whitespace run: `while (it != last && isspace(*it)) ++it`. -/
def ws_end (buf : List Char) (i : Nat) : Nat :=
  scanWhile buf (fun k => isspace (charAt buf k)) (buf.length - i) i

/-- Line-comment scan: `while (it != last && *it != '\n') ++it`. -/
def line_end (buf : List Char) (i : Nat) : Nat :=
  scanWhile buf (fun k => charAt buf k != '\n') (buf.length - i) i

/-- Block-comment close scan: `while (it + 1 < last)` looking for `*/`;
returns the index of the `*` of the closing `*/`, or none when the comment is
unterminated. -/
def blockCloseScan (buf : List Char) : Nat → Nat → Option Nat
  | 0, _ => none
  | fuel + 1, i =>
      if i + 1 < buf.length then
        if charAt buf i == '*' && charAt buf (i + 1) == '/' then some i
        else blockCloseScan buf fuel (i + 1)
      else none

/-- skip_whitespace_and_comments from lexer.cpp (current revision), one outer
iteration per fuel unit: skip whitespace, then a `//` comment (error token
spanning to end of buffer if no newline ends it, else resume one past the
newline), then a `/* */` comment (error token spanning to end of buffer if
unterminated), else stop.  Each iteration that recurses has consumed at least
the two comment-opener characters, so `length + 1 - i` units of fuel are
always enough. -/
def skipWCAux (buf : List Char) : Nat → Nat → Nat × Option Token
  | 0, i => (i, none)
  | fuel + 1, i =>
      let j := ws_end buf i
      if j + 1 < buf.length && charAt buf j == '/' && charAt buf (j + 1) == '/' then
        let k := line_end buf (j + 2)
        if k = buf.length then (buf.length, some ⟨.Error, j, buf.length⟩)
        else skipWCAux buf fuel (k + 1)
      else if j + 1 < buf.length && charAt buf j == '/' && charAt buf (j + 1) == '*' then
        match blockCloseScan buf (buf.length - (j + 2)) (j + 2) with
        | some m => skipWCAux buf fuel (m + 2)
        | none => (buf.length, some ⟨.Error, j, buf.length⟩)
      else (j, none)

/-- skip_whitespace_and_comments: the C++ entry point, returning the first
position after whitespace and comments together with the optional error token
produced by an unterminated comment. -/
def skip_whitespace_and_comments (buf : List Char) (i : Nat) : Nat × Option Token :=
  skipWCAux buf (buf.length + 1 - i) i

/-- lex's main loop `while (curr != last)`, with one fuel unit per iteration.
Each iteration either stops or pushes a token ending strictly beyond the
current position, so `length + 1` units of fuel from position 0 are enough. -/
def lexFrom (buf : List Char) : Nat → Nat → List Token
  | 0, _ => []
  | fuel + 1, curr =>
      if curr = buf.length then []
      else
        match skip_whitespace_and_comments buf curr with
        | (_, some t) => [t]
        | (p, none) =>
            if p = buf.length then []
            else
              let t := munch_token buf p
              t :: lexFrom buf fuel t.last

/-- lex from lexer.cpp: the entry point of the lexer. -/
def lex (buf : List Char) : List Token := lexFrom buf (buf.length + 1) 0

end Lexing

namespace Parsing

/-- Token from parser.hpp: the parse executable reconstructs tokens from the
textual form, keeping a `type` name, a `value` (only meaningful for Id, Num
and Error) and the token's `index` in the input stream. -/
structure Token where
  type : String
  value : String
  index : Nat
deriving DecidableEq, Repr

/-- Splitting a line on single spaces, as the `split` helper of
parse_main.cpp does with `std::getline` on an `istringstream`: consecutive
delimiters yield empty parts, a trailing delimiter yields no extra part, and
an empty input yields no parts.  The fuel bounds the number of parts and is
always sufficient at `length + 1`. -/
def splitAux : Nat → List Char → List (List Char)
  | 0, _ => []
  | _, [] => []
  | fuel + 1, c :: cs =>
      let part := (c :: cs).takeWhile (fun d => d != ' ')
      match (c :: cs).drop part.length with
      | [] => [part]
      | _ :: rest => part :: splitAux fuel rest

/-- split from parse_main.cpp, specialised to the space delimiter used there. -/
def split (line : List Char) : List (List Char) := splitAux (line.length + 1) line

/-- Building one Token from one string form, as the body of the loop in
tokenize_input: a parenthesis splits the form into type and value (the value
drops the final closing parenthesis); otherwise the whole form is the type. -/
def mkTok (cs : List Char) (i : Nat) : Token :=
  match cs.findIdx? (fun c => c == '(') with
  | some p =>
      { type := (cs.take p).asString
        value := ((cs.drop (p + 1)).take (cs.length - p - 2)).asString
        index := i }
  | none => { type := cs.asString, value := "", index := i }

/-- The indexed loop of tokenize_input: empty parts are skipped but the index
keeps counting them. -/
def tokHelper : Nat → List (List Char) → List Token
  | _, [] => []
  | i, s :: rest =>
      if s = [] then tokHelper (i + 1) rest
      else mkTok s i :: tokHelper (i + 1) rest

/-- tokenize_input from parse_main.cpp. -/
def tokenize_input (line : List Char) : List Token := tokHelper 0 (split line)

/-- UnaryOp from ast.hpp. -/
inductive UnaryOp where
  | Neg | Not
deriving DecidableEq, Repr

/-- BinaryOp from ast.hpp. -/
inductive BinaryOp where
  | Add | Sub | Mul | Div | And | Or | Eq | NotEq | Lt | Lte | Gt | Gte
deriving DecidableEq, Repr

/-- Type from ast.hpp (named Ty here because `Type` is taken in Lean); the
constructors mirror IntType, StructType, FnType, PtrType, ArrayType, NilType. -/
inductive Ty where
  | intType
  | structType (name : String)
  | fnType (param_types : List Ty) (return_type : Ty)
  | ptrType (base_type : Ty)
  | arrayType (element_type : Ty)
  | nilType

mutual

/-- Place from ast.hpp: Id, Deref, ArrayAccess, FieldAccess. -/
inductive Place where
  | id (name : String)
  | deref (e : Exp)
  | arrayAccess (array : Exp) (index : Exp)
  | fieldAccess (ptr : Exp) (field : String)

/-- Exp from ast.hpp: Val, Num, Nil, Select, UnOp, BinOp, NewSingle,
NewArray, CallExp. -/
inductive Exp where
  | val (place : Place)
  | num (value : Int)
  | nilExp
  | select (guard tt ff : Exp)
  | unOp (op : UnaryOp) (e : Exp)
  | binOp (op : BinaryOp) (left right : Exp)
  | newSingle (t : Ty)
  | newArray (t : Ty) (size : Exp)
  | callExp (fc : FunCall)

/-- FunCall from ast.hpp. -/
inductive FunCall where
  | mk (callee : Exp) (args : List Exp)

end

/-- Stmt from ast.hpp: Assign, CallStmt, If, While, Break, Continue, Return. -/
inductive Stmt where
  | assign (place : Place) (e : Exp)
  | callStmt (fc : FunCall)
  | ifStmt (guard : Exp) (tt ff : List Stmt)
  | whileStmt (guard : Exp) (body : List Stmt)
  | breakStmt
  | continueStmt
  | returnStmt (e : Exp)

/-- Val-shape test on expressions, the structural test the parser performs
with `dynamic_cast<Val*>`. -/
def isVal : Exp → Bool
  | .val _ => true
  | _ => false

/-- CallExp-shape test on expressions, the structural test the parser performs
with `dynamic_cast<CallExp*>`. -/
def isCall : Exp → Bool
  | .callExp _ => true
  | _ => false

/-- Outcome of `std::stoll`: a value, an out-of-range failure (the only one
parse_exp7 catches) or an invalid-argument failure (uncaught in the C++, so
it would terminate the process). -/
inductive StollRes where
  | ok (v : Int)
  | outOfRange
  | invalidArg
deriving DecidableEq, Repr

/-- Decimal value of a digit run. -/
def digitsToNat (ds : List Char) : Nat :=
  ds.foldl (fun a c => a * 10 + (c.toNat - 48)) 0

/-- std::stoll on the token's value: optional leading whitespace, an optional
sign, then a digit run; the result must fit a signed 64-bit integer
(out_of_range otherwise), and a missing digit run is invalid_argument. -/
def stoll (s : String) : StollRes :=
  let cs := (s.toList).dropWhile Lexing.isspace
  let neg : Bool := cs.headD ' ' == '-'
  let cs2 := if cs.headD ' ' == '-' || cs.headD ' ' == '+' then cs.tail else cs
  let digs := cs2.takeWhile Lexing.isdigit
  if digs.isEmpty then .invalidArg
  else
    let n : Int := digitsToNat digs
    let v : Int := if neg then -n else n
    if v < -(2 ^ 63) || (2 ^ 63 - 1 : Int) < v then .outOfRange else .ok v

/-- Parse-time failure: a structured message (the C++ throws
`std::runtime_error("parse error: " ++ msg)`), the uncaught-exception case
from stoll, a fuel marker for the embedding (never reached with enough fuel)
and a kind marker for ill-kinded intermediate results (provably unreachable). -/
inductive PErr where
  | fuel
  | kind
  | crash
  | err (msg : String)
deriving DecidableEq, Repr

/-- Intermediate parse results: each parsing routine of the C++ returns one of
these shapes. -/
inductive PRes where
  | exp (e : Exp)
  | ty (t : Ty)
  | tys (ts : List Ty)
  | exps (es : List Exp)
  | stmt (s : Stmt)
  | stmts (ss : List Stmt)

/-- Nonterminal tags for the single fueled interpreter of the recursive
descent parser: one tag per parsing routine of parser.cpp that the embedded
fragment needs (types, the seven expression levels, statements and blocks),
plus one tag per in-routine while loop, carrying the loop accumulator. -/
inductive NT where
  | ty | funty
  | tylist (acc : List Ty)
  | exp | exp1 | exp2 | exp3 | exp4 | exp5 | exp6 | exp7
  | qloop (left : Exp)
  | cmploop (left : Exp)
  | addloop (left : Exp)
  | mulloop (left : Exp)
  | chainloop (left : Exp)
  | arglist (acc : List Exp)
  | stmt | block
  | stmtlist (acc : List Stmt)

/-- check from parser.cpp: the current token exists and has the given type. -/
def check (ts : List Token) (s : String) : Bool :=
  match ts with
  | [] => false
  | t :: _ => t.type == s

/-- peek().index, which throws "unexpected end of token stream" when the
stream is exhausted. -/
def peekIndex (ts : List Token) : Except PErr Nat :=
  match ts with
  | [] => .error (.err "unexpected end of token stream")
  | t :: _ => .ok t.index

/-- consume from parser.cpp: every call site passes the message
`"unexpected token at token " ++ peek().index`, and evaluating that message
on an exhausted stream already throws "unexpected end of token stream". -/
def consume (ety : String) (ts : List Token) : Except PErr (Token × List Token) :=
  match ts with
  | [] => .error (.err "unexpected end of token stream")
  | t :: r =>
      if t.type == ety then .ok (t, r)
      else .error (.err ("unexpected token at token " ++ toString t.index))

/-- Extract a type result (the C++ needs no such step because each routine has
its own return type; a mismatch is unreachable). -/
def tyOf (x : Except PErr (PRes × List Token)) : Except PErr (Ty × List Token) := do
  let (res, r) ← x
  match res with
  | .ty t => .ok (t, r)
  | _ => .error .kind

/-- Extract a type-list result. -/
def tysOf (x : Except PErr (PRes × List Token)) : Except PErr (List Ty × List Token) := do
  let (res, r) ← x
  match res with
  | .tys t => .ok (t, r)
  | _ => .error .kind

/-- Extract an expression result. -/
def expOf (x : Except PErr (PRes × List Token)) : Except PErr (Exp × List Token) := do
  let (res, r) ← x
  match res with
  | .exp e => .ok (e, r)
  | _ => .error .kind

/-- Extract an expression-list result. -/
def expsOf (x : Except PErr (PRes × List Token)) : Except PErr (List Exp × List Token) := do
  let (res, r) ← x
  match res with
  | .exps e => .ok (e, r)
  | _ => .error .kind

/-- Extract a statement result. -/
def stmtOf (x : Except PErr (PRes × List Token)) : Except PErr (Stmt × List Token) := do
  let (res, r) ← x
  match res with
  | .stmt s => .ok (s, r)
  | _ => .error .kind

/-- Extract a statement-list result. -/
def stmtsOf (x : Except PErr (PRes × List Token)) : Except PErr (List Stmt × List Token) := do
  let (res, r) ← x
  match res with
  | .stmts s => .ok (s, r)
  | _ => .error .kind

/-- Comparison-operator selection inside parse_exp2; the trailing error branch
of the C++ if-chain is unreachable because the loop guard already matched. -/
def cmpOpOf (t : Token) : Except PErr BinaryOp :=
  if t.type == "Equal" then .ok .Eq
  else if t.type == "NotEq" then .ok .NotEq
  else if t.type == "Lt" then .ok .Lt
  else if t.type == "Lte" then .ok .Lte
  else if t.type == "Gt" then .ok .Gt
  else if t.type == "Gte" then .ok .Gte
  else .error (.err ("unexpected token at token " ++ toString t.index))

/-- The recursive descent parser of parser.cpp, embedded as a single fueled
interpreter over nonterminal tags; every nested call runs on one unit less of
fuel, so the recursion is structural and every run is kernel-reducible.  Each
branch transcribes the corresponding routine of parser.cpp: the token-type
checks via `check`, `advance` as taking the tail, `consume` with its
"unexpected token" message, and the error messages verbatim. -/
def runP : Nat → NT → List Token → Except PErr (PRes × List Token)
  | 0, _, _ => .error .fuel
  | fuel + 1, nt, ts =>
    match nt with
    | .ty =>
      match ts with
      | [] => runP fuel .funty []
      | t :: r =>
        if t.type == "Int" then .ok (.ty .intType, r)
        else if t.type == "Id" then .ok (.ty (.structType t.value), r)
        else if t.type == "Ampersand" then do
          let (inner, r₁) ← tyOf (runP fuel .ty r)
          .ok (.ty (.ptrType inner), r₁)
        else if t.type == "OpenBracket" then do
          let (inner, r₁) ← tyOf (runP fuel .ty r)
          let (_, r₂) ← consume "CloseBracket" r₁
          .ok (.ty (.arrayType inner), r₂)
        else runP fuel .funty ts
    | .funty => do
      let (_, r) ← consume "OpenParen" ts
      let (ps, r₁) ←
        if check r "CloseParen" then pure (([] : List Ty), r)
        else tysOf (runP fuel (.tylist []) r)
      let (_, r₂) ← consume "CloseParen" r₁
      let (_, r₃) ← consume "Arrow" r₂
      let (ret, r₄) ← tyOf (runP fuel .ty r₃)
      .ok (.ty (.fnType ps ret), r₄)
    | .tylist acc => do
      let (t, r) ← tyOf (runP fuel .ty ts)
      if check r "Comma" then runP fuel (.tylist (acc ++ [t])) r.tail
      else .ok (.tys (acc ++ [t]), r)
    | .exp => do
      let (l, r) ← expOf (runP fuel .exp1 ts)
      runP fuel (.qloop l) r
    | .qloop left =>
      if check ts "QuestionMark" then do
        let (tt, r) ← expOf (runP fuel .exp ts.tail)
        let (_, r₁) ← consume "Colon" r
        let (ff, r₂) ← expOf (runP fuel .exp1 r₁)
        runP fuel (.qloop (.select left tt ff)) r₂
      else .ok (.exp left, ts)
    | .exp1 => do
      let (l, r) ← expOf (runP fuel .exp2 ts)
      match r with
      | [] => .ok (.exp l, r)
      | t :: r₀ =>
        if t.type == "And" || t.type == "Or" then do
          let (rhs, r₁) ← expOf (runP fuel .exp1 r₀)
          .ok (.exp (.binOp (if t.type == "And" then .And else .Or) l rhs), r₁)
        else .ok (.exp l, t :: r₀)
    | .exp2 => do
      let (l, r) ← expOf (runP fuel .exp3 ts)
      runP fuel (.cmploop l) r
    | .cmploop left =>
      match ts with
      | [] => .ok (.exp left, [])
      | t :: r =>
        if t.type == "Equal" || t.type == "NotEq" || t.type == "Lt" ||
           t.type == "Lte" || t.type == "Gt" || t.type == "Gte" then do
          let (rhs, r₁) ← expOf (runP fuel .exp3 r)
          let op ← cmpOpOf t
          runP fuel (.cmploop (.binOp op left rhs)) r₁
        else .ok (.exp left, t :: r)
    | .exp3 => do
      let (l, r) ← expOf (runP fuel .exp4 ts)
      runP fuel (.addloop l) r
    | .addloop left =>
      match ts with
      | [] => .ok (.exp left, [])
      | t :: r =>
        if t.type == "Plus" || t.type == "Dash" then do
          let (rhs, r₁) ← expOf (runP fuel .exp4 r)
          runP fuel (.addloop (.binOp (if t.type == "Plus" then .Add else .Sub) left rhs)) r₁
        else .ok (.exp left, t :: r)
    | .exp4 => do
      let (l, r) ← expOf (runP fuel .exp5 ts)
      runP fuel (.mulloop l) r
    | .mulloop left =>
      match ts with
      | [] => .ok (.exp left, [])
      | t :: r =>
        if t.type == "Star" || t.type == "Slash" then do
          let (rhs, r₁) ← expOf (runP fuel .exp5 r)
          runP fuel (.mulloop (.binOp (if t.type == "Star" then .Mul else .Div) left rhs)) r₁
        else .ok (.exp left, t :: r)
    | .exp5 =>
      match ts with
      | [] => runP fuel .exp6 []
      | t :: r =>
        if t.type == "Dash" || t.type == "Not" then do
          let (e, r₁) ← expOf (runP fuel .exp5 r)
          .ok (.exp (.unOp (if t.type == "Dash" then .Neg else .Not) e), r₁)
        else runP fuel .exp6 (t :: r)
    | .exp6 => do
      let (e, r) ← expOf (runP fuel .exp7 ts)
      runP fuel (.chainloop e) r
    | .chainloop e =>
      match ts with
      | [] => .ok (.exp e, [])
      | t :: r =>
        if t.type == "OpenBracket" then do
          let (idx, r₁) ← expOf (runP fuel .exp r)
          let (_, r₂) ← consume "CloseBracket" r₁
          runP fuel (.chainloop (.val (.arrayAccess e idx))) r₂
        else if t.type == "Dot" then
          match r with
          | [] => .error (.err "unexpected end of token stream")
          | t₂ :: r₂ =>
            if t₂.type == "Id" then runP fuel (.chainloop (.val (.fieldAccess e t₂.value))) r₂
            else if t₂.type == "Star" then runP fuel (.chainloop (.val (.deref e))) r₂
            else .error (.err ("unexpected token at token " ++ toString t₂.index))
        else if t.type == "OpenParen" then do
          let (args, r₁) ←
            if check r "CloseParen" then pure (([] : List Exp), r)
            else expsOf (runP fuel (.arglist []) r)
          let (_, r₂) ← consume "CloseParen" r₁
          runP fuel (.chainloop (.callExp (.mk e args))) r₂
        else .ok (.exp e, t :: r)
    | .arglist acc => do
      let (e, r) ← expOf (runP fuel .exp ts)
      if check r "Comma" then runP fuel (.arglist (acc ++ [e])) r.tail
      else .ok (.exps (acc ++ [e]), r)
    | .exp7 =>
      match ts with
      | [] => .error (.err "unexpected end of token stream")
      | t :: r =>
        if t.type == "Id" then .ok (.exp (.val (.id t.value)), r)
        else if t.type == "Num" then
          match stoll t.value with
          | .ok v => .ok (.exp (.num v), r)
          | .outOfRange =>
              .error (.err ("invalid i64 number " ++ t.value ++ " at token " ++
                toString t.index))
          | .invalidArg => .error .crash
        else if t.type == "Nil" then .ok (.exp .nilExp, r)
        else if t.type == "New" then do
          let (typ, r₁) ← tyOf (runP fuel .ty r)
          .ok (.exp (.newSingle typ), r₁)
        else if t.type == "OpenBracket" then do
          let (typ, r₁) ← tyOf (runP fuel .ty r)
          let (_, r₂) ← consume "Semicolon" r₁
          let (sz, r₃) ← expOf (runP fuel .exp r₂)
          let (_, r₄) ← consume "CloseBracket" r₃
          .ok (.exp (.newArray typ sz), r₄)
        else if t.type == "OpenParen" then do
          let (e, r₁) ← expOf (runP fuel .exp r)
          let (_, r₂) ← consume "CloseParen" r₁
          .ok (.exp e, r₂)
        else .error (.err ("unexpected token at token " ++ toString t.index))
    | .stmt =>
      if check ts "If" then do
        let (_, r) ← consume "If" ts
        let (g, r₁) ← expOf (runP fuel .exp r)
        let (tt, r₂) ← stmtsOf (runP fuel .block r₁)
        if check r₂ "Else" then do
          let (ff, r₃) ← stmtsOf (runP fuel .block r₂.tail)
          .ok (.stmt (.ifStmt g tt ff), r₃)
        else .ok (.stmt (.ifStmt g tt []), r₂)
      else if check ts "While" then do
        let (_, r) ← consume "While" ts
        let (g, r₁) ← expOf (runP fuel .exp r)
        let (body, r₂) ← stmtsOf (runP fuel .block r₁)
        .ok (.stmt (.whileStmt g body), r₂)
      else if check ts "Return" then do
        let (_, r) ← consume "Return" ts
        let (e, r₁) ← expOf (runP fuel .exp r)
        let (_, r₂) ← consume "Semicolon" r₁
        .ok (.stmt (.returnStmt e), r₂)
      else if check ts "Break" then do
        let (_, r₁) ← consume "Semicolon" ts.tail
        .ok (.stmt .breakStmt, r₁)
      else if check ts "Continue" then do
        let (_, r₁) ← consume "Semicolon" ts.tail
        .ok (.stmt .continueStmt, r₁)
      else do
        let start ← peekIndex ts
        let (left, r) ← expOf (runP fuel .exp ts)
        if check r "Gets" then do
          let (rhs, r₁) ← expOf (runP fuel .exp r.tail)
          let (_, r₂) ← consume "Semicolon" r₁
          match left with
          | .val p => .ok (.stmt (.assign p rhs), r₂)
          | _ =>
              .error (.err ("left-hand side of assignment must be a place, starting at token "
                ++ toString start))
        else do
          let (_, r₁) ← consume "Semicolon" r
          match left with
          | .callExp fc => .ok (.stmt (.callStmt fc), r₁)
          | _ =>
              .error (.err ("standalone expressions must be function calls, starting at token "
                ++ toString start))
    | .block => do
      let (_, r) ← consume "OpenBrace" ts
      let (ss, r₁) ← stmtsOf (runP fuel (.stmtlist []) r)
      let (_, r₂) ← consume "CloseBrace" r₁
      .ok (.stmts ss, r₂)
    | .stmtlist acc =>
      if !(check ts "CloseBrace") && !ts.isEmpty then do
        let (s, r) ← stmtOf (runP fuel .stmt ts)
        runP fuel (.stmtlist (acc ++ [s])) r
      else .ok (.stmts acc, ts)

/-- Parser::parse_type. -/
def parse_type (fuel : Nat) (ts : List Token) : Except PErr (PRes × List Token) :=
  runP fuel .ty ts

/-- Parser::parse_exp (level 0: the ternary selection loop). -/
def parse_exp (fuel : Nat) (ts : List Token) : Except PErr (PRes × List Token) :=
  runP fuel .exp ts

/-- Parser::parse_exp1 (and / or). -/
def parse_exp1 (fuel : Nat) (ts : List Token) : Except PErr (PRes × List Token) :=
  runP fuel .exp1 ts

/-- Parser::parse_exp7 (primary expressions). -/
def parse_exp7 (fuel : Nat) (ts : List Token) : Except PErr (PRes × List Token) :=
  runP fuel .exp7 ts

/-- Parser::parse_stmt. -/
def parse_stmt (fuel : Nat) (ts : List Token) : Except PErr (PRes × List Token) :=
  runP fuel .stmt ts

end Parsing

namespace Lexing

theorem scanWhile_ge (buf : List Char) (p : Nat → Bool) :
    ∀ (fuel i : Nat), i ≤ scanWhile buf p fuel i := by
  intro fuel
  induction fuel with
  | zero => intro i; simp [scanWhile]
  | succ f ih =>
      intro i
      simp only [scanWhile]
      split
      · exact Nat.le_trans (Nat.le_succ i) (ih (i + 1))
      · exact Nat.le_refl i

theorem scanWhile_le_length (buf : List Char) (p : Nat → Bool) :
    ∀ (fuel i : Nat), i ≤ buf.length → scanWhile buf p fuel i ≤ buf.length := by
  intro fuel
  induction fuel with
  | zero => intro i h; simpa [scanWhile] using h
  | succ f ih =>
      intro i h
      simp only [scanWhile]
      split
      · rename_i hc
        have hi : i < buf.length := by
          have := (Bool.and_eq_true _ _).mp hc |>.1
          exact of_decide_eq_true this
        exact ih (i + 1) hi
      · exact h

theorem scanWhile_min (buf : List Char) (p : Nat → Bool) :
    ∀ (fuel i k : Nat), i ≤ k → k < scanWhile buf p fuel i → p k = true := by
  intro fuel
  induction fuel with
  | zero => intro i k hik hk; simp [scanWhile] at hk; omega
  | succ f ih =>
      intro i k hik hk
      simp only [scanWhile] at hk
      split at hk
      · rename_i hc
        rcases Nat.eq_or_lt_of_le hik with h | h
        · exact h ▸ ((Bool.and_eq_true _ _).mp hc).2
        · exact ih (i + 1) k h hk
      · omega

theorem scanWhile_stop (buf : List Char) (p : Nat → Bool) :
    ∀ (fuel i : Nat), i + fuel = buf.length →
      scanWhile buf p fuel i = buf.length ∨ p (scanWhile buf p fuel i) = false := by
  intro fuel
  induction fuel with
  | zero => intro i h; left; simpa [scanWhile] using h
  | succ f ih =>
      intro i h
      simp only [scanWhile]
      split
      · exact ih (i + 1) (by omega)
      · rename_i hc
        right
        cases hp : p i with
        | false => rfl
        | true =>
            refine absurd (show (decide (i < buf.length) && p i) = true by simp [hp]; omega) hc

theorem scanWhile_run (buf : List Char) (p : Nat → Bool) :
    ∀ (fuel i : Nat), i + fuel ≤ buf.length →
      (∀ k, i ≤ k → k < buf.length → p k = true) →
      scanWhile buf p fuel i = i + fuel := by
  intro fuel
  induction fuel with
  | zero => intro i _ _; simp [scanWhile]
  | succ f ih =>
      intro i h hp
      simp only [scanWhile]
      have hi : i < buf.length := by omega
      rw [if_pos]
      · rw [ih (i + 1) (by omega) (fun k hk hk' => hp k (by omega) hk')]; omega
      · simp [hi, hp i (Nat.le_refl i) hi]

theorem scanWhile_pos (buf : List Char) (p : Nat → Bool) (fuel i : Nat)
    (hf : 0 < fuel) (hi : i < buf.length) (hp : p i = true) :
    i + 1 ≤ scanWhile buf p fuel i := by
  obtain ⟨f, rfl⟩ : ∃ f, fuel = f + 1 := ⟨fuel - 1, by omega⟩
  simp only [scanWhile]
  rw [if_pos (by simp [hi, hp])]
  exact scanWhile_ge buf p f (i + 1)

theorem error_end_gt (buf : List Char) (first : Nat) (h : first < buf.length) :
    first < error_end buf first := by
  unfold error_end
  simp only [if_pos h]
  have := scanWhile_ge buf (fun k => !starts_token buf k) (buf.length - (first + 1)) (first + 1)
  omega

theorem error_end_le (buf : List Char) (first : Nat) (h : first < buf.length) :
    error_end buf first ≤ buf.length := by
  unfold error_end
  simp only [if_pos h]
  exact scanWhile_le_length buf _ _ (first + 1) (by omega)

theorem one_char_progress (buf : List Char) (first : Nat) (h : first < buf.length) :
    first < (one_char_munch buf first).last := by
  unfold one_char_munch
  split
  all_goals first
    | exact Nat.lt_succ_self first
    | exact error_end_gt buf first h

theorem one_char_le (buf : List Char) (first : Nat) (h : first < buf.length) :
    (one_char_munch buf first).last ≤ buf.length := by
  unfold one_char_munch
  split
  all_goals first
    | exact h
    | exact error_end_le buf first h

theorem identifier_end_gt (buf : List Char) (first : Nat) (h : first < buf.length)
    (ha : isalpha (charAt buf first) = true) : first < identifier_end buf first := by
  unfold identifier_end
  rw [if_pos (by simp [h, ha])]
  have := scanWhile_pos buf
    (fun k => isalnum (charAt buf k) || charAt buf k == '_')
    (buf.length - first) first (by omega) h (by simp [isalnum, ha])
  omega

theorem identifier_end_le (buf : List Char) (first : Nat) :
    identifier_end buf first ≤ buf.length ∨ identifier_end buf first = first := by
  unfold identifier_end
  split
  · rename_i hc
    have h : first < buf.length := of_decide_eq_true ((Bool.and_eq_true _ _).mp hc).1
    exact Or.inl (scanWhile_le_length buf _ _ first (by omega))
  · exact Or.inr rfl

theorem numeric_end_gt (buf : List Char) (first : Nat) (h : first < buf.length)
    (hd : isdigit (charAt buf first) = true) : first < numeric_end buf first := by
  unfold numeric_end
  rw [if_pos (by simp [h, hd])]
  have := scanWhile_pos buf (fun k => isdigit (charAt buf k))
    (buf.length - first) first (by omega) h hd
  omega

theorem numeric_end_le (buf : List Char) (first : Nat) :
    numeric_end buf first ≤ buf.length ∨ numeric_end buf first = first := by
  unfold numeric_end
  split
  · rename_i hc
    have h : first < buf.length := of_decide_eq_true ((Bool.and_eq_true _ _).mp hc).1
    exact Or.inl (scanWhile_le_length buf _ _ first (by omega))
  · exact Or.inr rfl

theorem kw_munch_last (buf : List Char) (first id_end : Nat) :
    (kw_munch buf first id_end).last = id_end := by
  unfold kw_munch
  simp only [apply_ite Token.last, ite_self]

theorem two_char_munch_shape (buf : List Char) (first : Nat) :
    (two_char_munch buf first).last = first + 2 ∨
    two_char_munch buf first = one_char_munch buf first := by
  unfold two_char_munch
  by_cases h1 : substr_eq buf first (first + 2) "!=".toList = true
  · rw [if_pos h1]; exact Or.inl rfl
  · rw [if_neg h1]
    by_cases h2 : substr_eq buf first (first + 2) "<=".toList = true
    · rw [if_pos h2]; exact Or.inl rfl
    · rw [if_neg h2]
      by_cases h3 : substr_eq buf first (first + 2) ">=".toList = true
      · rw [if_pos h3]; exact Or.inl rfl
      · rw [if_neg h3]
        by_cases h4 : substr_eq buf first (first + 2) "->".toList = true
        · rw [if_pos h4]; exact Or.inl rfl
        · rw [if_neg h4]
          by_cases h5 : substr_eq buf first (first + 2) "==".toList = true
          · rw [if_pos h5]; exact Or.inl rfl
          · rw [if_neg h5]; exact Or.inr rfl

theorem munch_progress (buf : List Char) (first : Nat) (h : first < buf.length) :
    first < (munch_token buf first).last := by
  unfold munch_token
  rw [if_neg (by omega : ¬ first = buf.length)]
  by_cases ha : isalpha (charAt buf first) = true
  · rw [if_pos ha, kw_munch_last]
    exact identifier_end_gt buf first h ha
  · rw [if_neg ha]
    by_cases hd : isdigit (charAt buf first) = true
    · rw [if_pos hd]
      exact numeric_end_gt buf first h hd
    · rw [if_neg hd]
      by_cases h2 : 2 ≤ buf.length - first
      · rw [if_pos h2]
        rcases two_char_munch_shape buf first with h' | h'
        · omega
        · rw [h']
          exact one_char_progress buf first h
      · rw [if_neg h2]
        exact one_char_progress buf first h

theorem munch_le (buf : List Char) (first : Nat) (h : first < buf.length) :
    (munch_token buf first).last ≤ buf.length := by
  unfold munch_token
  rw [if_neg (by omega : ¬ first = buf.length)]
  by_cases ha : isalpha (charAt buf first) = true
  · rw [if_pos ha, kw_munch_last]
    rcases identifier_end_le buf first with h' | h' <;> omega
  · rw [if_neg ha]
    by_cases hd : isdigit (charAt buf first) = true
    · rw [if_pos hd]
      show numeric_end buf first ≤ buf.length
      rcases numeric_end_le buf first with h' | h' <;> omega
    · rw [if_neg hd]
      by_cases h2 : 2 ≤ buf.length - first
      · rw [if_pos h2]
        rcases two_char_munch_shape buf first with h' | h'
        · omega
        · rw [h']
          exact one_char_le buf first h
      · rw [if_neg h2]
        exact one_char_le buf first h

theorem ws_end_ge (buf : List Char) (i : Nat) : i ≤ ws_end buf i :=
  scanWhile_ge buf _ _ i

theorem ws_end_le (buf : List Char) (i : Nat) (h : i ≤ buf.length) :
    ws_end buf i ≤ buf.length :=
  scanWhile_le_length buf _ _ i h

theorem line_end_ge (buf : List Char) (i : Nat) : i ≤ line_end buf i :=
  scanWhile_ge buf _ _ i

theorem line_end_le (buf : List Char) (i : Nat) (h : i ≤ buf.length) :
    line_end buf i ≤ buf.length :=
  scanWhile_le_length buf _ _ i h

theorem blockCloseScan_some (buf : List Char) :
    ∀ (fuel i m : Nat), blockCloseScan buf fuel i = some m →
      i ≤ m ∧ m + 1 < buf.length := by
  intro fuel
  induction fuel with
  | zero => intro i m h; simp [blockCloseScan] at h
  | succ f ih =>
      intro i m h
      simp only [blockCloseScan] at h
      split at h
      · rename_i hin
        split at h
        · cases h
          exact ⟨Nat.le_refl _, hin⟩
        · have := ih (i + 1) m h
          omega
      · cases h

theorem skipWCAux_ge (buf : List Char) :
    ∀ (fuel i : Nat), i ≤ (skipWCAux buf fuel i).1 := by
  intro fuel
  induction fuel with
  | zero => intro i; exact Nat.le_refl i
  | succ f ih =>
      intro i
      have hws := ws_end_ge buf i
      simp only [skipWCAux]
      by_cases c1 : (decide (ws_end buf i + 1 < buf.length) &&
          charAt buf (ws_end buf i) == '/' && charAt buf (ws_end buf i + 1) == '/') = true
      · rw [if_pos c1]
        simp only [Bool.and_eq_true, decide_eq_true_eq] at c1
        by_cases hk : line_end buf (ws_end buf i + 2) = buf.length
        · rw [if_pos hk]
          have := c1.1.1
          omega
        · rw [if_neg hk]
          have hk2 := line_end_ge buf (ws_end buf i + 2)
          have := ih (line_end buf (ws_end buf i + 2) + 1)
          omega
      · rw [if_neg c1]
        by_cases c2 : (decide (ws_end buf i + 1 < buf.length) &&
            charAt buf (ws_end buf i) == '/' && charAt buf (ws_end buf i + 1) == '*') = true
        · rw [if_pos c2]
          simp only [Bool.and_eq_true, decide_eq_true_eq] at c2
          rcases hbc : blockCloseScan buf (buf.length - (ws_end buf i + 2)) (ws_end buf i + 2)
            with _ | m
          · show i ≤ buf.length
            have := c2.1.1
            omega
          · show i ≤ (skipWCAux buf f (m + 2)).1
            have hm := blockCloseScan_some buf _ _ _ hbc
            have := ih (m + 2)
            omega
        · rw [if_neg c2]
          exact hws

theorem skipWCAux_le (buf : List Char) :
    ∀ (fuel i : Nat), i ≤ buf.length → (skipWCAux buf fuel i).1 ≤ buf.length := by
  intro fuel
  induction fuel with
  | zero => intro i h; exact h
  | succ f ih =>
      intro i h
      have hws := ws_end_le buf i h
      simp only [skipWCAux]
      by_cases c1 : (decide (ws_end buf i + 1 < buf.length) &&
          charAt buf (ws_end buf i) == '/' && charAt buf (ws_end buf i + 1) == '/') = true
      · rw [if_pos c1]
        simp only [Bool.and_eq_true, decide_eq_true_eq] at c1
        by_cases hk : line_end buf (ws_end buf i + 2) = buf.length
        · rw [if_pos hk]
        · rw [if_neg hk]
          have hk2 := line_end_le buf (ws_end buf i + 2) (by have := c1.1.1; omega)
          exact ih (line_end buf (ws_end buf i + 2) + 1) (by omega)
      · rw [if_neg c1]
        by_cases c2 : (decide (ws_end buf i + 1 < buf.length) &&
            charAt buf (ws_end buf i) == '/' && charAt buf (ws_end buf i + 1) == '*') = true
        · rw [if_pos c2]
          rcases hbc : blockCloseScan buf (buf.length - (ws_end buf i + 2)) (ws_end buf i + 2)
            with _ | m
          · exact Nat.le_refl _
          · show (skipWCAux buf f (m + 2)).1 ≤ buf.length
            have hm := blockCloseScan_some buf _ _ _ hbc
            exact ih (m + 2) (by omega)
        · rw [if_neg c2]
          exact hws

theorem skip_ge (buf : List Char) (i : Nat) :
    i ≤ (skip_whitespace_and_comments buf i).1 :=
  skipWCAux_ge buf _ i

theorem skip_le (buf : List Char) (i : Nat) (h : i ≤ buf.length) :
    (skip_whitespace_and_comments buf i).1 ≤ buf.length :=
  skipWCAux_le buf _ i h

theorem lexFrom_stable (buf : List Char) :
    ∀ (f₁ f₂ i : Nat), i ≤ buf.length →
      buf.length - i < f₁ → buf.length - i < f₂ →
      lexFrom buf f₁ i = lexFrom buf f₂ i := by
  intro f₁
  induction f₁ with
  | zero => intro f₂ i h h1 h2; omega
  | succ f ih =>
      intro f₂ i h h1 h2
      obtain ⟨g, rfl⟩ : ∃ g, f₂ = g + 1 := ⟨f₂ - 1, by omega⟩
      by_cases hend : i = buf.length
      · simp [lexFrom, hend]
      · rcases hs : skip_whitespace_and_comments buf i with ⟨p, o⟩
        have hpge : i ≤ p := by
          have := skip_ge buf i
          rw [hs] at this
          exact this
        have hple : p ≤ buf.length := by
          have := skip_le buf i h
          rw [hs] at this
          exact this
        cases o with
        | some t => simp [lexFrom, hend, hs]
        | none =>
            by_cases hpn : p = buf.length
            · simp [lexFrom, hend, hs, hpn]
            · have hplt : p < buf.length := by omega
              have hprog := munch_progress buf p hplt
              have hle := munch_le buf p hplt
              simp only [lexFrom, if_neg hend, hs]
              rw [if_neg hpn, if_neg hpn]
              exact congrArg _ (ih g ((munch_token buf p).last) hle (by omega) (by omega))

end Lexing

namespace Lexing

theorem blockCloseScan_none (buf : List Char) :
    ∀ (fuel i : Nat),
      (∀ m, m < buf.length → i ≤ m →
        ¬(charAt buf m = '*' ∧ charAt buf (m + 1) = '/')) →
      blockCloseScan buf fuel i = none := by
  intro fuel
  induction fuel with
  | zero => intro i _; rfl
  | succ f ih =>
      intro i h
      simp only [blockCloseScan]
      split
      · rename_i hin
        have hx : ¬((charAt buf i == '*' && charAt buf (i + 1) == '/') = true) := by
          intro hc
          simp only [Bool.and_eq_true, beq_iff_eq] at hc
          exact h i (by omega) (Nat.le_refl i) hc
        rw [if_neg hx]
        exact ih (i + 1) (fun m hm him => h m hm (by omega))
      · rfl

theorem one_char_munch_fallback (buf : List Char) (first : Nat)
    (h1 : starts_one_char_token (charAt buf first) = false) :
    one_char_munch buf first = ⟨.Error, first, error_end buf first⟩ := by
  unfold one_char_munch
  split
  all_goals first
    | rfl
    | (rename_i heq
       rw [heq] at h1
       exact absurd h1 (by decide))

theorem two_char_munch_fallback (buf : List Char) (first : Nat)
    (e1 : substr_eq buf first (first + 2) "!=".toList = false)
    (e2 : substr_eq buf first (first + 2) "<=".toList = false)
    (e3 : substr_eq buf first (first + 2) ">=".toList = false)
    (e4 : substr_eq buf first (first + 2) "->".toList = false)
    (e5 : substr_eq buf first (first + 2) "==".toList = false) :
    two_char_munch buf first = one_char_munch buf first := by
  unfold two_char_munch
  simp only [e1, e2, e3, e4, e5]
  simp

theorem drop_take_two : ∀ (buf : List Char) (first : Nat), first + 1 < buf.length →
    (buf.drop first).take 2 = [charAt buf first, charAt buf (first + 1)] := by
  intro buf
  induction buf with
  | nil => intro first h; simp at h
  | cons c cs ih =>
      intro first h
      cases first with
      | zero =>
          cases cs with
          | nil => simp at h
          | cons d ds => simp [charAt]
      | succ n =>
          simp only [List.drop_succ_cons]
          rw [ih n (by simpa using h)]
          simp [charAt]

end Lexing

/-- Claim C9: lex terminates on every finite input range.  First conjunct:
munch_token, on a non-empty range, always returns a token whose end is
strictly greater than its start (every branch consumes at least one byte).
Second conjunct: the whitespace-and-comment skipper never moves backwards.
Third conjunct: the fueled main loop of lex has already reached its fixpoint
with any fuel exceeding the buffer length, which is the termination statement
for the C++ while loop. -/
theorem lex_terminates :
    (∀ (buf : List Char) (first : Nat), first < buf.length →
        first < (Lexing.munch_token buf first).last) ∧
    (∀ (buf : List Char) (i : Nat), i ≤ (Lexing.skip_whitespace_and_comments buf i).1) ∧
    (∀ (buf : List Char) (fuel : Nat), buf.length < fuel →
        Lexing.lexFrom buf fuel 0 = Lexing.lex buf) :=
  ⟨Lexing.munch_progress, Lexing.skip_ge,
   fun buf fuel h =>
     Lexing.lexFrom_stable buf fuel (buf.length + 1) 0 (Nat.zero_le _)
       (by omega) (by omega)⟩

/-- Witness for lex_terminates at concrete inputs. -/
theorem lex_terminates_inst :
    0 < (Lexing.munch_token "a b".toList 0).last ∧
    Lexing.lexFrom "a b".toList 9 0 = Lexing.lex "a b".toList :=
  ⟨lex_terminates.1 "a b".toList 0 (by decide),
   lex_terminates.2.2 "a b".toList 9 (by decide)⟩

/-- Claim C3: a line comment that reaches end-of-buffer without a newline
makes the skipper emit a single Error token spanning from the `//` to the end
of the buffer, and the lexer outputs exactly that token from this state and
terminates; a line comment terminated by a newline at position k is skipped
including the newline itself (the skipper resumes at k + 1). -/
theorem line_comment_eof (buf : List Char) (i j : Nat)
    (hj : Lexing.ws_end buf i = j)
    (hlt : j + 1 < buf.length)
    (h1 : Lexing.charAt buf j = '/')
    (h2 : Lexing.charAt buf (j + 1) = '/') :
    ((∀ k, k < buf.length → j + 2 ≤ k → Lexing.charAt buf k ≠ '\n') →
       Lexing.skip_whitespace_and_comments buf i =
         (buf.length, some ⟨.Error, j, buf.length⟩) ∧
       ∀ fuel, Lexing.lexFrom buf (fuel + 1) i = [⟨.Error, j, buf.length⟩]) ∧
    (∀ k, Lexing.line_end buf (j + 2) = k → k < buf.length →
       Lexing.charAt buf k = '\n' ∧
       ∀ fuel, Lexing.skipWCAux buf (fuel + 1) i = Lexing.skipWCAux buf fuel (k + 1)) := by
  have hij : i ≤ j := hj ▸ Lexing.ws_end_ge buf i
  have hin : i < buf.length := by omega
  have hcond : (decide (Lexing.ws_end buf i + 1 < buf.length) &&
      Lexing.charAt buf (Lexing.ws_end buf i) == '/' &&
      Lexing.charAt buf (Lexing.ws_end buf i + 1) == '/') = true := by
    rw [hj, h1, h2]
    simp [hlt]
  have hstep : ∀ fuel, Lexing.skipWCAux buf (fuel + 1) i =
      (if Lexing.line_end buf (j + 2) = buf.length then
        (buf.length, some ⟨.Error, j, buf.length⟩)
      else Lexing.skipWCAux buf fuel (Lexing.line_end buf (j + 2) + 1)) := by
    intro fuel
    simp only [Lexing.skipWCAux]
    rw [if_pos hcond, hj]
  constructor
  · intro hnl
    have hle : Lexing.line_end buf (j + 2) = buf.length := by
      have := Lexing.scanWhile_run buf (fun k => Lexing.charAt buf k != '\n')
        (buf.length - (j + 2)) (j + 2) (by omega)
        (fun k hk hk' => by
          simp only [bne_iff_ne, ne_eq, decide_eq_true_eq]
          exact hnl k hk' hk)
      unfold Lexing.line_end
      omega
    have hskip : Lexing.skip_whitespace_and_comments buf i =
        (buf.length, some ⟨.Error, j, buf.length⟩) := by
      obtain ⟨f, hf⟩ : ∃ f, buf.length + 1 - i = f + 1 := ⟨buf.length - i, by omega⟩
      unfold Lexing.skip_whitespace_and_comments
      rw [hf, hstep f, if_pos hle]
    refine ⟨hskip, fun fuel => ?_⟩
    simp only [Lexing.lexFrom]
    rw [if_neg (by omega : ¬ i = buf.length), hskip]
  · intro k hk hkn
    constructor
    · have hstop := Lexing.scanWhile_stop buf (fun m => Lexing.charAt buf m != '\n')
        (buf.length - (j + 2)) (j + 2) (by omega)
      have : Lexing.line_end buf (j + 2) = Lexing.scanWhile buf
          (fun m => Lexing.charAt buf m != '\n') (buf.length - (j + 2)) (j + 2) := rfl
      rw [← this, hk] at hstop
      rcases hstop with h' | h'
      · omega
      · simpa using h'
    · intro fuel
      rw [hstep fuel, hk, if_neg (by omega)]

/-- Witness for line_comment_eof: an unterminated line comment over the whole
buffer, and a terminated one resuming one past the newline. -/
theorem line_comment_eof_inst :
    Lexing.skip_whitespace_and_comments "// x".toList 0 =
      (4, some ⟨.Error, 0, 4⟩) ∧
    Lexing.lexFrom "// x".toList 3 0 = [⟨.Error, 0, 4⟩] ∧
    Lexing.charAt "//\nx".toList 2 = '\n' ∧
    Lexing.skipWCAux "//\nx".toList 2 0 = Lexing.skipWCAux "//\nx".toList 1 3 :=
  ⟨((line_comment_eof "// x".toList 0 0 (by decide) (by decide) (by decide)
      (by decide)).1 (by decide)).1,
   ((line_comment_eof "// x".toList 0 0 (by decide) (by decide) (by decide)
      (by decide)).1 (by decide)).2 2,
   ((line_comment_eof "//\nx".toList 0 0 (by decide) (by decide) (by decide)
      (by decide)).2 2 (by decide) (by decide)).1,
   ((line_comment_eof "//\nx".toList 0 0 (by decide) (by decide) (by decide)
      (by decide)).2 2 (by decide) (by decide)).2 1⟩

/-- Claim C4, amended: when the skipper reaches a block-comment opener which
has no closing `*/` anywhere after it, it emits exactly one Error token whose
lexeme spans from the `/*` to the end of the buffer, and from that state the
lexer outputs exactly that token — it is the last token of the stream. -/
theorem unterminated_block_comment (buf : List Char) (i j : Nat)
    (hj : Lexing.ws_end buf i = j)
    (hlt : j + 1 < buf.length)
    (h1 : Lexing.charAt buf j = '/')
    (h2 : Lexing.charAt buf (j + 1) = '*')
    (hnc : ∀ m, m < buf.length → j + 2 ≤ m →
      ¬(Lexing.charAt buf m = '*' ∧ Lexing.charAt buf (m + 1) = '/')) :
    Lexing.skip_whitespace_and_comments buf i =
      (buf.length, some ⟨.Error, j, buf.length⟩) ∧
    ∀ fuel, Lexing.lexFrom buf (fuel + 1) i = [⟨.Error, j, buf.length⟩] := by
  have hij : i ≤ j := hj ▸ Lexing.ws_end_ge buf i
  have hin : i < buf.length := by omega
  have hc1 : ¬((decide (Lexing.ws_end buf i + 1 < buf.length) &&
      Lexing.charAt buf (Lexing.ws_end buf i) == '/' &&
      Lexing.charAt buf (Lexing.ws_end buf i + 1) == '/') = true) := by
    rw [hj, h2]
    simp
  have hc2 : (decide (Lexing.ws_end buf i + 1 < buf.length) &&
      Lexing.charAt buf (Lexing.ws_end buf i) == '/' &&
      Lexing.charAt buf (Lexing.ws_end buf i + 1) == '*') = true := by
    rw [hj, h1, h2]
    simp [hlt]
  have hbc : Lexing.blockCloseScan buf (buf.length - (j + 2)) (j + 2) = none :=
    Lexing.blockCloseScan_none buf _ (j + 2) (fun m hm him => hnc m hm him)
  have hskip : Lexing.skip_whitespace_and_comments buf i =
      (buf.length, some ⟨.Error, j, buf.length⟩) := by
    obtain ⟨f, hf⟩ : ∃ f, buf.length + 1 - i = f + 1 := ⟨buf.length - i, by omega⟩
    unfold Lexing.skip_whitespace_and_comments
    rw [hf]
    simp only [Lexing.skipWCAux]
    rw [if_neg hc1, if_pos hc2, hj, hbc]
  refine ⟨hskip, fun fuel => ?_⟩
  simp only [Lexing.lexFrom]
  rw [if_neg (by omega : ¬ i = buf.length), hskip]

/-- Witness for unterminated_block_comment on the spec's own scenario
`/* unterminated`. -/
theorem unterminated_block_comment_inst :
    Lexing.skip_whitespace_and_comments "/* unterminated".toList 0 =
      (15, some ⟨.Error, 0, 15⟩) ∧
    Lexing.lexFrom "/* unterminated".toList 16 0 = [⟨.Error, 0, 15⟩] :=
  ⟨(unterminated_block_comment "/* unterminated".toList 0 0 (by decide)
      (by decide) (by decide) (by decide) (by decide)).1,
   (unterminated_block_comment "/* unterminated".toList 0 0 (by decide)
      (by decide) (by decide) (by decide) (by decide)).2 15⟩

/-- Counterexample to claim C4 as literally stated: the buffer `// /*\nx`
contains the block-comment opener `/*` at index 3 with no closing `*/`
anywhere, yet lex produces a single Id token and no Error token at all,
because the opener sits inside a newline-terminated line comment. -/
theorem block_comment_claim_cex :
    Lexing.charAt "// /*\nx".toList 3 = '/' ∧
    Lexing.charAt "// /*\nx".toList 4 = '*' ∧
    Lexing.blockCloseScan "// /*\nx".toList 2 5 = none ∧
    Lexing.lex "// /*\nx".toList = [⟨.Id, 6, 7⟩] := by
  refine ⟨rfl, rfl, rfl, rfl⟩

/-- Claim C5: when neither a keyword/identifier, nor a number, nor a
two-character operator, nor a one-character token matches at the current
position, munch_token produces an Error token starting at the current byte;
the Error lexeme consumes at least one byte, stays inside the buffer, absorbs
every following position at which no valid token (or comment) can begin —
whitespace included — and stops exactly at the buffer end or at the next
position where a valid token or comment begins. -/
theorem error_token_extent (buf : List Char) (first : Nat)
    (h : first < buf.length)
    (ha : Lexing.isalpha (Lexing.charAt buf first) = false)
    (hd : Lexing.isdigit (Lexing.charAt buf first) = false)
    (e1 : Lexing.substr_eq buf first (first + 2) "!=".toList = false)
    (e2 : Lexing.substr_eq buf first (first + 2) "<=".toList = false)
    (e3 : Lexing.substr_eq buf first (first + 2) ">=".toList = false)
    (e4 : Lexing.substr_eq buf first (first + 2) "->".toList = false)
    (e5 : Lexing.substr_eq buf first (first + 2) "==".toList = false)
    (h1 : Lexing.starts_one_char_token (Lexing.charAt buf first) = false) :
    Lexing.munch_token buf first = ⟨.Error, first, Lexing.error_end buf first⟩ ∧
    first < Lexing.error_end buf first ∧
    Lexing.error_end buf first ≤ buf.length ∧
    (∀ k, first < k → k < Lexing.error_end buf first →
      Lexing.starts_token buf k = false) ∧
    (Lexing.error_end buf first = buf.length ∨
      Lexing.starts_token buf (Lexing.error_end buf first) = true) := by
  have hone := Lexing.one_char_munch_fallback buf first h1
  have hmt : Lexing.munch_token buf first = ⟨.Error, first, Lexing.error_end buf first⟩ := by
    unfold Lexing.munch_token
    rw [if_neg (by omega : ¬ first = buf.length),
        if_neg (by simp [ha]), if_neg (by simp [hd])]
    by_cases h2 : 2 ≤ buf.length - first
    · rw [if_pos h2, Lexing.two_char_munch_fallback buf first e1 e2 e3 e4 e5, hone]
    · rw [if_neg h2, hone]
  have hee : Lexing.error_end buf first =
      Lexing.scanWhile buf (fun k => !Lexing.starts_token buf k)
        (buf.length - (first + 1)) (first + 1) := by
    unfold Lexing.error_end
    rw [if_pos h]
  refine ⟨hmt, ?_, ?_, ?_, ?_⟩
  · rw [hee]
    have := Lexing.scanWhile_ge buf (fun k => !Lexing.starts_token buf k)
      (buf.length - (first + 1)) (first + 1)
    omega
  · rw [hee]
    exact Lexing.scanWhile_le_length buf _ _ (first + 1) (by omega)
  · intro k hk hk'
    rw [hee] at hk'
    have := Lexing.scanWhile_min buf (fun m => !Lexing.starts_token buf m)
      (buf.length - (first + 1)) (first + 1) k (by omega) hk'
    simpa using this
  · rw [hee]
    have := Lexing.scanWhile_stop buf (fun m => !Lexing.starts_token buf m)
      (buf.length - (first + 1)) (first + 1) (by omega)
    rcases this with h' | h'
    · exact Or.inl h'
    · exact Or.inr (by simpa using h')

/-- Witness for error_token_extent on the buffer `@# a`: the Error lexeme is
`@# ` — it absorbs the second unknown byte and the space, stopping right
before the letter. -/
theorem error_token_extent_inst :
    Lexing.munch_token "@# a".toList 0 =
      ⟨.Error, 0, Lexing.error_end "@# a".toList 0⟩ ∧
    0 < Lexing.error_end "@# a".toList 0 ∧
    Lexing.error_end "@# a".toList 0 = 3 :=
  ⟨(error_token_extent "@# a".toList 0 (by decide) (by decide) (by decide)
      (by decide) (by decide) (by decide) (by decide) (by decide) (by decide)).1,
   (error_token_extent "@# a".toList 0 (by decide) (by decide) (by decide)
      (by decide) (by decide) (by decide) (by decide) (by decide) (by decide)).2.1,
   by decide⟩

/-- Claim C6: whenever at least two characters remain and the next two form
one of the digraphs `!=`, `<=`, `>=`, `->`, `==`, munch_token emits the single
corresponding two-character token — the two-character operators are tried
before the single-character table, and what follows the digraph in the buffer
is irrelevant. -/
theorem digraph_single_token (buf : List Char) (first : Nat)
    (h : first + 2 ≤ buf.length) :
    (Lexing.charAt buf first = '!' → Lexing.charAt buf (first + 1) = '=' →
      Lexing.munch_token buf first = ⟨.NotEq, first, first + 2⟩) ∧
    (Lexing.charAt buf first = '<' → Lexing.charAt buf (first + 1) = '=' →
      Lexing.munch_token buf first = ⟨.Lte, first, first + 2⟩) ∧
    (Lexing.charAt buf first = '>' → Lexing.charAt buf (first + 1) = '=' →
      Lexing.munch_token buf first = ⟨.Gte, first, first + 2⟩) ∧
    (Lexing.charAt buf first = '-' → Lexing.charAt buf (first + 1) = '>' →
      Lexing.munch_token buf first = ⟨.Arrow, first, first + 2⟩) ∧
    (Lexing.charAt buf first = '=' → Lexing.charAt buf (first + 1) = '=' →
      Lexing.munch_token buf first = ⟨.Equal, first, first + 2⟩) := by
  have hsl : ∀ pat : List Char,
      Lexing.substr_eq buf first (first + 2) pat =
        ([Lexing.charAt buf first, Lexing.charAt buf (first + 1)] == pat) := by
    intro pat
    unfold Lexing.substr_eq
    rw [(by omega : first + 2 - first = 2), Lexing.drop_take_two buf first (by omega)]
  refine ⟨?_, ?_, ?_, ?_, ?_⟩ <;> intro hc1 hc2 <;>
    unfold Lexing.munch_token <;>
    rw [if_neg (by omega : ¬ first = buf.length),
        if_neg (by rw [hc1]; decide), if_neg (by rw [hc1]; decide),
        if_pos (by omega : 2 ≤ buf.length - first)] <;>
    unfold Lexing.two_char_munch <;>
    simp only [hsl, hc1, hc2] <;>
    rfl

/-- Witness for digraph_single_token: `!=` followed by further characters
lexes as one NotEq token, never as Error plus Gets. -/
theorem digraph_single_token_inst :
    Lexing.munch_token "!=4".toList 0 = ⟨.NotEq, 0, 2⟩ ∧
    Lexing.munch_token "<=x".toList 0 = ⟨.Lte, 0, 2⟩ :=
  ⟨(digraph_single_token "!=4".toList 0 (by decide)).1 (by decide) (by decide),
   (digraph_single_token "<=x".toList 0 (by decide)).2.1 (by decide) (by decide)⟩

/-- Claim C10: parenthesized grouping is invisible in the AST — the primary
form `( exp )` returns the inner expression node itself with no wrapper, so
parsing `( e )` at primary position gives exactly the node that parsing `e`
at full expression level gives. -/
theorem paren_grouping (fuel : Nat) (t cp : Parsing.Token)
    (r ts₂ : List Parsing.Token) (e : Parsing.Exp)
    (ht : t.type = "OpenParen")
    (hin : Parsing.runP fuel .exp r = .ok (.exp e, cp :: ts₂))
    (hcp : cp.type = "CloseParen") :
    Parsing.parse_exp7 (fuel + 1) (t :: r) = .ok (.exp e, ts₂) := by
  unfold Parsing.parse_exp7
  simp only [Parsing.runP, ht, hin, Parsing.expOf, Parsing.consume, hcp]
  simp [Bind.bind, Except.bind, hcp]

/-- Witness for paren_grouping: `( x )` parses to the bare Val(Id("x")). -/
theorem paren_grouping_inst :
    Parsing.parse_exp7 12
      [⟨"OpenParen", "", 0⟩, ⟨"Id", "x", 1⟩, ⟨"CloseParen", "", 2⟩] =
      .ok (.exp (.val (.id "x")), []) :=
  paren_grouping 11 ⟨"OpenParen", "", 0⟩ ⟨"CloseParen", "", 2⟩
    [⟨"Id", "x", 1⟩, ⟨"CloseParen", "", 2⟩] [] (.val (.id "x")) rfl rfl rfl

/-- Claim C2: the ternary operator parses its true arm at full exp precedence
and its false arm at exp1 precedence, so nesting happens in the middle arm:
after the guard, a `?` makes the parser read the true arm with parse_exp, a
`:`, then the false arm with parse_exp1, and when no further `?` follows it
returns Select(guard, tt, ff). -/
theorem select_nesting (fuel : Nat) (ts ts₁ ts₂ ts₃ : List Parsing.Token)
    (q c : Parsing.Token) (g tt ff : Parsing.Exp)
    (h1 : Parsing.runP (fuel + 2) .exp1 ts = .ok (.exp g, q :: ts₁))
    (hq : q.type = "QuestionMark")
    (h2 : Parsing.runP (fuel + 1) .exp ts₁ = .ok (.exp tt, c :: ts₂))
    (hc : c.type = "Colon")
    (h3 : Parsing.runP (fuel + 1) .exp1 ts₂ = .ok (.exp ff, ts₃))
    (hnq : Parsing.check ts₃ "QuestionMark" = false) :
    Parsing.parse_exp (fuel + 3) ts = .ok (.exp (.select g tt ff), ts₃) := by
  have e1 : Parsing.runP (fuel + 3) .exp ts =
      Except.bind (Parsing.expOf (Parsing.runP (fuel + 2) .exp1 ts))
        (fun x => Parsing.runP (fuel + 2) (.qloop x.1) x.2) := rfl
  have hchk : Parsing.check (q :: ts₁) "QuestionMark" = true := by
    simp [Parsing.check, hq]
  have e2 : Parsing.runP (fuel + 2) (.qloop g) (q :: ts₁) =
      (if Parsing.check (q :: ts₁) "QuestionMark" = true then
        Except.bind (Parsing.expOf (Parsing.runP (fuel + 1) .exp ts₁)) (fun x =>
          Except.bind (Parsing.consume "Colon" x.2) (fun y =>
            Except.bind (Parsing.expOf (Parsing.runP (fuel + 1) .exp1 y.2)) (fun z =>
              Parsing.runP (fuel + 1) (.qloop (.select g x.1 z.1)) z.2)))
      else .ok (.exp g, q :: ts₁)) := rfl
  have hcons : Parsing.consume "Colon" (c :: ts₂) = .ok (c, ts₂) := by
    simp [Parsing.consume, hc]
  have e3 : Parsing.runP (fuel + 1) (.qloop (.select g tt ff)) ts₃ =
      (if Parsing.check ts₃ "QuestionMark" = true then
        Except.bind (Parsing.expOf (Parsing.runP fuel .exp ts₃.tail)) (fun x =>
          Except.bind (Parsing.consume "Colon" x.2) (fun y =>
            Except.bind (Parsing.expOf (Parsing.runP fuel .exp1 y.2)) (fun z =>
              Parsing.runP fuel (.qloop (.select (.select g tt ff) x.1 z.1)) z.2)))
      else .ok (.exp (.select g tt ff), ts₃)) := rfl
  unfold Parsing.parse_exp
  rw [e1, h1]
  show Parsing.runP (fuel + 2) (.qloop g) (q :: ts₁) = _
  rw [e2, if_pos hchk, h2]
  show Except.bind (Parsing.consume "Colon" (c :: ts₂)) (fun y =>
      Except.bind (Parsing.expOf (Parsing.runP (fuel + 1) .exp1 y.2)) (fun z =>
        Parsing.runP (fuel + 1) (.qloop (.select g tt z.1)) z.2)) = _
  rw [hcons]
  show Except.bind (Parsing.expOf (Parsing.runP (fuel + 1) .exp1 ts₂)) (fun z =>
      Parsing.runP (fuel + 1) (.qloop (.select g tt z.1)) z.2) = _
  rw [h3]
  show Parsing.runP (fuel + 1) (.qloop (.select g tt ff)) ts₃ = _
  rw [e3, if_neg (by simp [hnq])]

/-- Witness for select_nesting: `a ? b ? c : d : e` parses as
`a ? (b ? c : d) : e`. -/
theorem select_nesting_inst :
    Parsing.parse_exp 12
      [⟨"Id", "a", 0⟩, ⟨"QuestionMark", "", 1⟩, ⟨"Id", "b", 2⟩,
       ⟨"QuestionMark", "", 3⟩, ⟨"Id", "c", 4⟩, ⟨"Colon", "", 5⟩,
       ⟨"Id", "d", 6⟩, ⟨"Colon", "", 7⟩, ⟨"Id", "e", 8⟩] =
      .ok (.exp (.select (.val (.id "a"))
        (.select (.val (.id "b")) (.val (.id "c")) (.val (.id "d")))
        (.val (.id "e"))), []) :=
  select_nesting 9 _ _ _ _ _ _ _ _ _ rfl rfl rfl rfl rfl rfl

namespace Parsing

theorem stmt_else_eq (fuel : Nat) (t₀ : Token) (rest : List Token)
    (h1 : t₀.type ≠ "If") (h2 : t₀.type ≠ "While") (h3 : t₀.type ≠ "Return")
    (h4 : t₀.type ≠ "Break") (h5 : t₀.type ≠ "Continue") :
    runP (fuel + 1) .stmt (t₀ :: rest) =
      Except.bind (expOf (runP fuel .exp (t₀ :: rest))) (fun lr =>
        if check lr.2 "Gets" = true then
          Except.bind (expOf (runP fuel .exp lr.2.tail)) (fun rr =>
            Except.bind (consume "Semicolon" rr.2) (fun sr =>
              match lr.1 with
              | .val p => Except.ok (.stmt (.assign p rr.1), sr.2)
              | _ => Except.error (.err
                  ("left-hand side of assignment must be a place, starting at token "
                    ++ toString t₀.index))))
        else
          Except.bind (consume "Semicolon" lr.2) (fun sr =>
            match lr.1 with
            | .callExp fc => Except.ok (.stmt (.callStmt fc), sr.2)
            | _ => Except.error (.err
                ("standalone expressions must be function calls, starting at token "
                  ++ toString t₀.index)))) := by
  simp only [runP]
  rw [if_neg (by simp [check, h1]), if_neg (by simp [check, h2]),
      if_neg (by simp [check, h3]), if_neg (by simp [check, h4]),
      if_neg (by simp [check, h5])]
  rfl

end Parsing

/-- Claim C1: in a statement that is not If/While/Return/Break/Continue, the
parser parses an expression; on `lhs = rhs ;` it accepts exactly when the lhs
expression is a Val(Place) node, strips the Val and produces Assign(place,
rhs) — and every Place is structurally Id, Deref, ArrayAccess or FieldAccess;
on a standalone `expr ;` it accepts exactly when expr is a CallExp, unwrapping
it to CallStmt; the two failure cases raise the parse errors naming the index
of the statement's first token. -/
theorem parse_stmt_place_rule :
    (∀ p : Parsing.Place,
      (∃ n, p = .id n) ∨ (∃ e, p = .deref e) ∨
      (∃ a i, p = .arrayAccess a i) ∨ (∃ o fd, p = .fieldAccess o fd)) ∧
    (∀ (fuel : Nat) (t₀ g s : Parsing.Token) (rest ts₁ ts₂ : List Parsing.Token)
        (rhs : Parsing.Exp) (p : Parsing.Place),
      t₀.type ≠ "If" → t₀.type ≠ "While" → t₀.type ≠ "Return" →
      t₀.type ≠ "Break" → t₀.type ≠ "Continue" →
      Parsing.runP fuel .exp (t₀ :: rest) = .ok (.exp (.val p), g :: ts₁) →
      g.type = "Gets" →
      Parsing.runP fuel .exp ts₁ = .ok (.exp rhs, s :: ts₂) →
      s.type = "Semicolon" →
      Parsing.parse_stmt (fuel + 1) (t₀ :: rest) =
        .ok (.stmt (.assign p rhs), ts₂)) ∧
    (∀ (fuel : Nat) (t₀ g s : Parsing.Token) (rest ts₁ ts₂ : List Parsing.Token)
        (e rhs : Parsing.Exp),
      t₀.type ≠ "If" → t₀.type ≠ "While" → t₀.type ≠ "Return" →
      t₀.type ≠ "Break" → t₀.type ≠ "Continue" →
      Parsing.runP fuel .exp (t₀ :: rest) = .ok (.exp e, g :: ts₁) →
      g.type = "Gets" →
      Parsing.runP fuel .exp ts₁ = .ok (.exp rhs, s :: ts₂) →
      s.type = "Semicolon" →
      Parsing.isVal e = false →
      Parsing.parse_stmt (fuel + 1) (t₀ :: rest) =
        .error (.err ("left-hand side of assignment must be a place, starting at token "
          ++ toString t₀.index))) ∧
    (∀ (fuel : Nat) (t₀ s : Parsing.Token) (rest ts₂ : List Parsing.Token)
        (fc : Parsing.FunCall),
      t₀.type ≠ "If" → t₀.type ≠ "While" → t₀.type ≠ "Return" →
      t₀.type ≠ "Break" → t₀.type ≠ "Continue" →
      Parsing.runP fuel .exp (t₀ :: rest) = .ok (.exp (.callExp fc), s :: ts₂) →
      s.type = "Semicolon" →
      Parsing.parse_stmt (fuel + 1) (t₀ :: rest) =
        .ok (.stmt (.callStmt fc), ts₂)) ∧
    (∀ (fuel : Nat) (t₀ s : Parsing.Token) (rest ts₂ : List Parsing.Token)
        (e : Parsing.Exp),
      t₀.type ≠ "If" → t₀.type ≠ "While" → t₀.type ≠ "Return" →
      t₀.type ≠ "Break" → t₀.type ≠ "Continue" →
      Parsing.runP fuel .exp (t₀ :: rest) = .ok (.exp e, s :: ts₂) →
      s.type = "Semicolon" →
      Parsing.isCall e = false →
      Parsing.parse_stmt (fuel + 1) (t₀ :: rest) =
        .error (.err ("standalone expressions must be function calls, starting at token "
          ++ toString t₀.index))) := by
  refine ⟨?_, ?_, ?_, ?_, ?_⟩
  · intro p
    cases p with
    | id n => exact Or.inl ⟨n, rfl⟩
    | deref e => exact Or.inr (Or.inl ⟨e, rfl⟩)
    | arrayAccess a i => exact Or.inr (Or.inr (Or.inl ⟨a, i, rfl⟩))
    | fieldAccess o fd => exact Or.inr (Or.inr (Or.inr ⟨o, fd, rfl⟩))
  · intro fuel t₀ g s rest ts₁ ts₂ rhs p h1 h2 h3 h4 h5 hL hg hR hs
    unfold Parsing.parse_stmt
    rw [Parsing.stmt_else_eq fuel t₀ rest h1 h2 h3 h4 h5, hL]
    simp only [Parsing.expOf, Bind.bind, Except.bind]
    rw [if_pos (by simp [Parsing.check, hg])]
    simp only [List.tail_cons]
    rw [hR]
    simp only [Parsing.expOf, Bind.bind, Except.bind]
    rw [show Parsing.consume "Semicolon" (s :: ts₂) = .ok (s, ts₂) by
      simp [Parsing.consume, hs]]
  · intro fuel t₀ g s rest ts₁ ts₂ e rhs h1 h2 h3 h4 h5 hL hg hR hs hval
    unfold Parsing.parse_stmt
    rw [Parsing.stmt_else_eq fuel t₀ rest h1 h2 h3 h4 h5, hL]
    simp only [Parsing.expOf, Bind.bind, Except.bind]
    rw [if_pos (by simp [Parsing.check, hg])]
    simp only [List.tail_cons]
    rw [hR]
    simp only [Parsing.expOf, Bind.bind, Except.bind]
    rw [show Parsing.consume "Semicolon" (s :: ts₂) = .ok (s, ts₂) by
      simp [Parsing.consume, hs]]
    cases e <;> simp_all [Parsing.isVal, Bind.bind, Except.bind]
  · intro fuel t₀ s rest ts₂ fc h1 h2 h3 h4 h5 hL hs
    unfold Parsing.parse_stmt
    rw [Parsing.stmt_else_eq fuel t₀ rest h1 h2 h3 h4 h5, hL]
    simp only [Parsing.expOf, Bind.bind, Except.bind]
    rw [if_neg (by simp [Parsing.check, hs])]
    rw [show Parsing.consume "Semicolon" (s :: ts₂) = .ok (s, ts₂) by
      simp [Parsing.consume, hs]]
  · intro fuel t₀ s rest ts₂ e h1 h2 h3 h4 h5 hL hs hcall
    unfold Parsing.parse_stmt
    rw [Parsing.stmt_else_eq fuel t₀ rest h1 h2 h3 h4 h5, hL]
    simp only [Parsing.expOf, Bind.bind, Except.bind]
    rw [if_neg (by simp [Parsing.check, hs])]
    rw [show Parsing.consume "Semicolon" (s :: ts₂) = .ok (s, ts₂) by
      simp [Parsing.consume, hs]]
    cases e <;> simp_all [Parsing.isCall, Bind.bind, Except.bind]

/-- Witness for parse_stmt_place_rule: `x = 1 ;` builds Assign, `7 = 1 ;` is
rejected as a non-place left-hand side, `f ( ) ;` builds CallStmt, and a bare
`x ;` is rejected as a non-call standalone expression. -/
theorem parse_stmt_place_rule_inst :
    Parsing.parse_stmt 13
      [⟨"Id", "x", 0⟩, ⟨"Gets", "", 1⟩, ⟨"Num", "1", 2⟩, ⟨"Semicolon", "", 3⟩] =
      .ok (.stmt (.assign (.id "x") (.num 1)), []) ∧
    Parsing.parse_stmt 13
      [⟨"Num", "7", 0⟩, ⟨"Gets", "", 1⟩, ⟨"Num", "1", 2⟩, ⟨"Semicolon", "", 3⟩] =
      .error (.err "left-hand side of assignment must be a place, starting at token 0") ∧
    Parsing.parse_stmt 13
      [⟨"Id", "f", 0⟩, ⟨"OpenParen", "", 1⟩, ⟨"CloseParen", "", 2⟩,
       ⟨"Semicolon", "", 3⟩] =
      .ok (.stmt (.callStmt (.mk (.val (.id "f")) [])), []) ∧
    Parsing.parse_stmt 13 [⟨"Id", "x", 0⟩, ⟨"Semicolon", "", 1⟩] =
      .error (.err "standalone expressions must be function calls, starting at token 0") :=
  ⟨parse_stmt_place_rule.2.1 12 _ _ _ _ _ _ _ _
      (by decide) (by decide) (by decide) (by decide) (by decide) rfl rfl rfl rfl,
   parse_stmt_place_rule.2.2.1 12 _ _ _ _ _ _ _ _
      (by decide) (by decide) (by decide) (by decide) (by decide) rfl rfl rfl rfl rfl,
   parse_stmt_place_rule.2.2.2.1 12 _ _ _ _ _
      (by decide) (by decide) (by decide) (by decide) (by decide) rfl rfl,
   parse_stmt_place_rule.2.2.2.2 12 _ _ _ _ _
      (by decide) (by decide) (by decide) (by decide) (by decide) rfl rfl rfl⟩

namespace Parsing

theorem takeWhile_all {p : Char → Bool} :
    ∀ l : List Char, (∀ c ∈ l, p c = true) → l.takeWhile p = l := by
  intro l
  induction l with
  | nil => intro _; rfl
  | cons c cs ih =>
      intro h
      simp [List.takeWhile_cons, h c (by simp),
        ih (fun d hd => h d (by simp [hd]))]

theorem isdigit_not_space (c : Char) (h : Lexing.isdigit c = true) :
    Lexing.isspace c = false := by
  simp [Lexing.isdigit] at h
  simp [Lexing.isspace]
  omega

theorem stoll_digits (s : String) (hne : s.toList ≠ [])
    (hdig : ∀ c ∈ s.toList, Lexing.isdigit c = true) :
    stoll s = (if (digitsToNat s.toList : Int) ≤ 2 ^ 63 - 1
      then .ok (digitsToNat s.toList) else .outOfRange) := by
  obtain ⟨c, cs, hcs⟩ : ∃ c cs, s.toList = c :: cs := by
    cases h : s.toList with
    | nil => exact absurd h hne
    | cons c cs => exact ⟨c, cs, rfl⟩
  have hc : Lexing.isdigit c = true := hdig c (by rw [hcs]; simp)
  have hnum : 48 ≤ c.toNat ∧ c.toNat ≤ 57 := by
    simpa [Lexing.isdigit] using hc
  have hsp : Lexing.isspace c = false := isdigit_not_space c hc
  have hmc : (c == '-') = false := by
    refine beq_eq_false_iff_ne.mpr ?_
    intro he
    rw [he] at hnum
    simp at hnum
  have hpc : (c == '+') = false := by
    refine beq_eq_false_iff_ne.mpr ?_
    intro he
    rw [he] at hnum
    simp at hnum
  have htw : (c :: cs).takeWhile Lexing.isdigit = c :: cs :=
    takeWhile_all (c :: cs) (fun d hd => hdig d (by rw [hcs]; exact hd))
  unfold stoll
  rw [hcs]
  simp only [List.dropWhile_cons, hsp, Bool.false_eq_true, if_false,
    List.headD_cons, hmc, hpc, Bool.or_self, htw, List.isEmpty_cons,
    Bool.false_eq_true]
  have hnn : (0 : Int) ≤ (digitsToNat (c :: cs) : Int) := Int.ofNat_nonneg _
  by_cases hle : (digitsToNat (c :: cs) : Int) ≤ 2 ^ 63 - 1
  · rw [if_pos hle,
      if_neg (by simp only [Bool.or_eq_true, decide_eq_true_eq]; omega)]
  · rw [if_neg hle,
      if_pos (by simp only [Bool.or_eq_true, decide_eq_true_eq]; omega)]

end Parsing

/-- Claim C7: a Num token whose lexeme is a digit run is converted to a
non-negative signed 64-bit integer, and the parser fails with the error
`invalid i64 number <lexeme> at token <index>` exactly when the value exceeds
9223372036854775807. -/
theorem num_literal_i64 (fuel : Nat) (t : Parsing.Token) (r : List Parsing.Token)
    (ht : t.type = "Num") (hne : t.value.toList ≠ [])
    (hdig : ∀ c ∈ t.value.toList, Lexing.isdigit c = true) :
    (Parsing.digitsToNat t.value.toList ≤ 9223372036854775807 →
      Parsing.parse_exp7 (fuel + 1) (t :: r) =
        .ok (.exp (.num ((Parsing.digitsToNat t.value.toList : Int))), r)) ∧
    (9223372036854775807 < Parsing.digitsToNat t.value.toList →
      Parsing.parse_exp7 (fuel + 1) (t :: r) =
        .error (.err ("invalid i64 number " ++ t.value ++ " at token "
          ++ toString t.index))) := by
  have hst := Parsing.stoll_digits t.value hne hdig
  rw [show ((2 : Int) ^ 63 - 1) = 9223372036854775807 from by norm_num] at hst
  constructor
  · intro hcmp
    have hle : (Parsing.digitsToNat t.value.toList : Int) ≤ 9223372036854775807 := by
      exact_mod_cast hcmp
    unfold Parsing.parse_exp7
    simp only [Parsing.runP, ht]
    rw [hst, if_pos hle]
    simp
  · intro hcmp
    have hle : ¬((Parsing.digitsToNat t.value.toList : Int) ≤ 9223372036854775807) := by
      omega
    unfold Parsing.parse_exp7
    simp only [Parsing.runP, ht]
    rw [hst, if_neg hle]
    simp

/-- Witness for num_literal_i64 at the two boundary lexemes of the spec:
9223372036854775807 is accepted, 9223372036854775808 is rejected. -/
theorem num_literal_i64_inst :
    Parsing.parse_exp7 1 [⟨"Num", "9223372036854775807", 0⟩] =
      .ok (.exp (.num 9223372036854775807), []) ∧
    Parsing.parse_exp7 1 [⟨"Num", "9223372036854775808", 0⟩] =
      .error (.err "invalid i64 number 9223372036854775808 at token 0") :=
  ⟨(num_literal_i64 0 ⟨"Num", "9223372036854775807", 0⟩ [] rfl (by decide)
      (by decide)).1 (by decide),
   (num_literal_i64 0 ⟨"Num", "9223372036854775808", 0⟩ [] rfl (by decide)
      (by decide)).2 (by decide)⟩

namespace Parsing

theorem mkTok_index (s : List Char) (i : Nat) : (mkTok s i).index = i := by
  unfold mkTok
  split <;> rfl

theorem tokHelper_index_ge :
    ∀ (fields : List (List Char)) (i : Nat) (t : Token),
      t ∈ tokHelper i fields → i ≤ t.index := by
  intro fields
  induction fields with
  | nil => intro i t ht; simp [tokHelper] at ht
  | cons s rest ih =>
      intro i t ht
      simp only [tokHelper] at ht
      split at ht
      · have := ih (i + 1) t ht
        omega
      · rcases List.mem_cons.mp ht with h | h
        · rw [h, mkTok_index]
        · have := ih (i + 1) t h
          omega

theorem tokHelper_pairwise :
    ∀ (fields : List (List Char)) (i : Nat),
      ((tokHelper i fields).map Token.index).Pairwise (· < ·) := by
  intro fields
  induction fields with
  | nil => intro i; simp [tokHelper]
  | cons s rest ih =>
      intro i
      simp only [tokHelper]
      split
      · exact ih (i + 1)
      · simp only [List.map_cons, List.pairwise_cons]
        refine ⟨?_, ih (i + 1)⟩
        intro x hx
        rcases List.mem_map.mp hx with ⟨t, ht, rfl⟩
        have := tokHelper_index_ge rest (i + 1) t ht
        rw [mkTok_index]
        omega

theorem tokHelper_range :
    ∀ (fields : List (List Char)) (i : Nat), (∀ s ∈ fields, s ≠ []) →
      (tokHelper i fields).map Token.index = List.range' i fields.length := by
  intro fields
  induction fields with
  | nil => intro i _; simp [tokHelper]
  | cons s rest ih =>
      intro i h
      simp only [tokHelper]
      rw [if_neg (h s (by simp))]
      simp only [List.map_cons, List.length_cons, List.range'_succ, mkTok_index]
      rw [ih (i + 1) (fun u hu => h u (by simp [hu]))]

end Parsing

/-- Claim C8, amended: each token produced by tokenize_input carries as its
position the index of its field in the space-split of the input line (empty
fields are skipped but still counted), so positions are strictly increasing;
they are the contiguous sequence 0, 1, 2, … exactly on lines with no leading
or consecutive spaces (no empty fields). -/
theorem token_position_ordinals :
    (∀ (fields : List (List Char)) (i : Nat),
      ((Parsing.tokHelper i fields).map Parsing.Token.index).Pairwise (· < ·)) ∧
    (∀ line : List Char, (∀ s ∈ Parsing.split line, s ≠ []) →
      (Parsing.tokenize_input line).map Parsing.Token.index =
        List.range (Parsing.split line).length) := by
  refine ⟨Parsing.tokHelper_pairwise, fun line h => ?_⟩
  unfold Parsing.tokenize_input
  rw [Parsing.tokHelper_range (Parsing.split line) 0 h, List.range_eq_range']

/-- Witness for token_position_ordinals on a well-formed lex output line. -/
theorem token_position_ordinals_inst :
    (Parsing.tokenize_input "Id(x) Num(1) Semicolon".toList).map Parsing.Token.index =
      List.range (Parsing.split "Id(x) Num(1) Semicolon".toList).length :=
  token_position_ordinals.2 _ (by decide)

/-- Counterexample to claim C8 as literally stated: on the line `a  b` (two
consecutive spaces) tokenize_input yields two tokens with positions 0 and 2 —
the second token's position is not its 0-based ordinal 1, because the loop
index counts the skipped empty field. -/
theorem token_position_gap_cex :
    Parsing.tokenize_input "a  b".toList = [⟨"a", "", 0⟩, ⟨"b", "", 2⟩] ∧
    (Parsing.tokenize_input "a  b".toList).map Parsing.Token.index ≠
      List.range (Parsing.tokenize_input "a  b".toList).length := by
  constructor <;> decide
